import Mathlib

set_option maxRecDepth 100000

/-!
Verification development for the Diff Processing & Prioritization Engine of the
git-commit-ai repository.

The engine lives in two TypeScript sources:
  * `DiffProcessor` (diffProcessor.ts): splitting a raw unified diff into
    per-file chunks, heuristic priority scoring, and greedy byte-budget
    selection (`processDiff`, `splitIntoChunks`, `parseFileChunk`,
    `calculatePriority`, `prioritizeChunks`, `selectMostImportantChunks`,
    `findGoodTruncationPoint`, `generateSummary`).
  * `EnhancedOpenAIService` (aiSdkService.ts): strategy selection
    (direct / chunked / summarized), payload construction
    (`createChunkedDiff`, `createSummarizedDiff`) and the `processingInfo`
    record of `generateCommitMessage`.

JavaScript strings are modelled as `List Char` (inputs of interest are ASCII,
so UTF-16 length coincides with character count).  JavaScript numbers are
modelled as `Nat`/`Int`; the two floating-point comparisons in
`findGoodTruncationPoint` (`x > t * 0.7`, `x > t * 0.8`) are modelled exactly
over the integers as `10 * x > 7 * t` / `10 * x > 8 * t`; the double rounding
of `0.7`/`0.8` can only disagree with the rational value on ties far outside
the regimes exercised here (see the comment at `findGoodTruncationPoint`).
-/

/-- The change type of one per-file diff chunk (`DiffChunk.changeType`,
a union of the four string literals in the source). -/
inductive ChangeType where
  | added
  | deleted
  | modified
  | renamed
deriving DecidableEq

/-- One file's worth of change, mirroring the `DiffChunk` interface. -/
structure DiffChunk where
  filePath : List Char
  changeType : ChangeType
  content : List Char
  linesAdded : Nat
  linesDeleted : Nat
  priority : Int
deriving DecidableEq

/-- The output of `DiffProcessor.processDiff`, mirroring `ProcessedDiff`. -/
structure ProcessedDiff where
  chunks : List DiffChunk
  summary : List Char
  totalFiles : Nat
  totalLinesAdded : Nat
  totalLinesDeleted : Nat
  isTruncated : Bool
deriving DecidableEq

/-- The three size limits held by a `DiffProcessor` instance after its
constructor has resolved the defaults (`maxChunkSize`, `maxTotalSize`,
`maxFiles`). -/
structure ProcessorOptions where
  maxChunkSize : Nat
  maxTotalSize : Nat
  maxFiles : Nat
deriving DecidableEq

/-- Constructor defaults of the `DiffProcessor` class itself:
50 KiB per chunk, 500 KiB total, 50 files. -/
def defaultProcessorOptions : ProcessorOptions :=
  { maxChunkSize := 50 * 1024, maxTotalSize := 500 * 1024, maxFiles := 50 }

/-- Worker for `splitLines`: `cur` is the reversed current line, `acc` the
reversed list of completed lines. -/
def splitLinesGo : List Char → List Char → List (List Char) → List (List Char)
  | [], cur, acc => (cur.reverse :: acc).reverse
  | c :: rest, cur, acc =>
    if c = '\n' then splitLinesGo rest [] (cur.reverse :: acc)
    else splitLinesGo rest (c :: cur) acc

/-- JavaScript `s.split('\n')`: a trailing newline yields a final empty
line, and the empty string yields one empty line. -/
def splitLines (s : List Char) : List (List Char) := splitLinesGo s [] []

/-- JavaScript `s.includes(pat)` (substring containment; the empty pattern
always matches). -/
def containsSubstr : List Char → List Char → Bool
  | [], pat => pat.isEmpty
  | c :: rest, pat => pat.isPrefixOf (c :: rest) || containsSubstr rest pat

/-- Worker for `splitDiffBlocks`: `acc` is the reversed current block.  A new
block starts at every line that begins with `diff --git`, i.e. right after a
`'\n'` whose remainder starts with the marker (an empty lookahead match at
index 0 does not split, matching `String.prototype.split`). -/
def splitDiffBlocksGo : List Char → List Char → List (List Char)
  | [], acc => [acc.reverse]
  | c :: rest, acc =>
    if c = '\n' && "diff --git".data.isPrefixOf rest then
      (c :: acc).reverse :: splitDiffBlocksGo rest []
    else
      splitDiffBlocksGo rest (c :: acc)

/-- `diff.split(/(?=^diff --git)/m).filter(Boolean)`: cut the raw text before
every line starting with `diff --git`; only `'\n'` line terminators are
modelled (the concrete inputs considered contain no `'\r'`).  All produced
blocks are nonempty, so `filter(Boolean)` only discards the case of an empty
input. -/
def splitDiffBlocks (s : List Char) : List (List Char) :=
  match s with
  | [] => []
  | c :: rest => splitDiffBlocksGo (c :: rest) []

/-- `'\n... (truncated)'`, the fixed truncation marker (16 characters). -/
def truncationMarker : List Char := "\n... (truncated)".data

/-- Largest index `i ≤ bound` at which `pat` occurs in `s`, if any. -/
def jsLastIndexOfNat (s pat : List Char) (bound : Nat) : Option Nat :=
  ((List.range (bound + 1)).filter fun i => pat.isPrefixOf (s.drop i)).getLast?

/-- JavaScript `s.lastIndexOf(pat, fromIdx)`: the largest start index
`≤ max(fromIdx, 0)` of an occurrence of `pat`, or `-1`. -/
def jsLastIndexOf (s pat : List Char) (fromIdx : Int) : Int :=
  let bound : Nat := if fromIdx < 0 then 0 else min fromIdx.toNat s.length
  match jsLastIndexOfNat s pat bound with
  | some i => (i : Int)
  | none => -1

/-- `findGoodTruncationPoint(content, maxLength)`.  The source compares
against `truncateAt * 0.7` and `truncateAt * 0.8` with IEEE doubles; this is
modelled exactly over ℤ by cross-multiplication with 10.  The double products
differ from the rational values by under `4e-15 · |truncateAt|`, so the two
semantics can only disagree when an integer lies within that distance of
`7·truncateAt/10` (resp. `8/10`), which does not occur at the small
magnitudes exercised by the theorems below. -/
def findGoodTruncationPoint (content : List Char) (maxLength : Nat) : Int :=
  let truncateAt : Int := (maxLength : Int) - 100
  let hunkBoundary : Int := jsLastIndexOf content "\n@@".data truncateAt
  if 10 * hunkBoundary > 7 * truncateAt then hunkBoundary
  else
    let lineBoundary : Int := jsLastIndexOf content "\n".data truncateAt
    if 10 * lineBoundary > 8 * truncateAt then lineBoundary
    else truncateAt

/-- JavaScript `s.substring(0, e)`: `e` is clamped to `[0, s.length]`. -/
def jsSubstringTo (s : List Char) (e : Int) : List Char := s.take e.toNat

/-- A character matched by `.` in a JavaScript regex without the `s` flag
(no line terminators). -/
def isDotChar (c : Char) : Bool := c != '\n' && c != '\r'

/-- Whether, in the regex `diff --git a\/(.+) b\/(.+)`, the first group can
end exactly before offset `j` of `rest` (the text after `a/`): the group is
nonempty and all-dot, ` b/` follows, and at least one dot character follows
that. -/
def matchBSlashAt (rest : List Char) (j : Nat) : Bool :=
  decide (1 ≤ j) && (rest.take j).all isDotChar &&
    " b/".data.isPrefixOf (rest.drop j) &&
    (match rest.drop (j + 3) with
     | [] => false
     | c :: _ => isDotChar c)

/-- `line.match(/diff --git a\/(.+) b\/(.+)/)`, returning the second capture
group (the post-change path).  The engine scans start positions left to
right; at a viable start, the greedy first group takes the largest split
point `j` admitting ` b/` and a nonempty second group, and the greedy second
group is the maximal dot-run after ` b/`. -/
def jsMatchDiffGit : List Char → Option (List Char)
  | [] => none
  | c :: rest =>
    if "diff --git a/".data.isPrefixOf (c :: rest) then
      let r := (c :: rest).drop 13
      match ((List.range (r.length + 1)).filter fun j => matchBSlashAt r j).getLast? with
      | some j => some ((r.drop (j + 3)).takeWhile isDotChar)
      | none => jsMatchDiffGit rest
    else
      jsMatchDiffGit rest

/-- The `changeType` classification of `parseFileChunk`: scan the whole file
block for `new file mode`, `deleted file mode`, `rename from`, in that order,
defaulting to `modified`. -/
def changeTypeOf (fileBlock : List Char) : ChangeType :=
  if containsSubstr fileBlock "new file mode".data then .added
  else if containsSubstr fileBlock "deleted file mode".data then .deleted
  else if containsSubstr fileBlock "rename from".data then .renamed
  else .modified

/-- Lines counted as additions: start with `+` but not `+++`. -/
def countAdded (lines : List (List Char)) : Nat :=
  (lines.filter fun l => "+".data.isPrefixOf l && !("+++".data.isPrefixOf l)).length

/-- Lines counted as deletions: start with `-` but not `---`. -/
def countDeleted (lines : List (List Char)) : Nat :=
  (lines.filter fun l => "-".data.isPrefixOf l && !("---".data.isPrefixOf l)).length

/-- The recognized primary source-code extensions,
regex `/\.(ts|js|py|rs|go|java|cpp|c)$/`. -/
def sourceExts : List (List Char) :=
  [".ts".data, ".js".data, ".py".data, ".rs".data, ".go".data,
   ".java".data, ".cpp".data, ".c".data]

/-- Whether the path matches `/\.(ts|js|py|rs|go|java|cpp|c)$/`. -/
def hasSourceExt (filePath : List Char) : Bool :=
  sourceExts.any fun e => e.isSuffixOf filePath

/-- `calculatePriority(filePath, changeType, linesAdded, linesDeleted)`:
base 3, sequential conditional adjustments, then clamp to `[1, 5]`. -/
def calculatePriority (filePath : List Char) (changeType : ChangeType)
    (linesAdded linesDeleted : Nat) : Int :=
  let priority : Int := 3
  let priority :=
    if containsSubstr filePath "package.json".data ||
       containsSubstr filePath "Cargo.toml".data then priority + 1 else priority
  let priority :=
    if containsSubstr filePath "README".data ||
       containsSubstr filePath "CHANGELOG".data then priority + 1 else priority
  let priority :=
    if containsSubstr filePath ".config".data ||
       containsSubstr filePath "Dockerfile".data then priority + 1 else priority
  let priority := if hasSourceExt filePath then priority + 1 else priority
  let priority :=
    if containsSubstr filePath "test".data ||
       containsSubstr filePath "spec".data ||
       containsSubstr filePath "__tests__".data ||
       containsSubstr filePath ".test.".data then priority - 1 else priority
  let priority :=
    if containsSubstr filePath "node_modules".data ||
       containsSubstr filePath "dist/".data ||
       containsSubstr filePath "build/".data ||
       containsSubstr filePath ".min.".data then priority - 2 else priority
  let totalChanges := linesAdded + linesDeleted
  let priority :=
    if 100 < totalChanges then priority + 1
    else if totalChanges < 5 then priority - 1
    else priority
  let priority :=
    if changeType == .added || changeType == .deleted then priority + 1 else priority
  max 1 (min 5 priority)

/-- `parseFileChunk(fileBlock)`: extract the header line, path, change type,
line counts, truncate an oversized body at `findGoodTruncationPoint`, and
score the chunk. -/
def parseFileChunk (opts : ProcessorOptions) (fileBlock : List Char) : Option DiffChunk :=
  let lines := splitLines fileBlock
  match lines.find? (fun l => "diff --git".data.isPrefixOf l) with
  | none => none
  | some diffHeader =>
    match jsMatchDiffGit diffHeader with
    | none => none
    | some filePath =>
      let changeType := changeTypeOf fileBlock
      let linesAdded := countAdded lines
      let linesDeleted := countDeleted lines
      let content :=
        if opts.maxChunkSize < fileBlock.length then
          jsSubstringTo fileBlock (findGoodTruncationPoint fileBlock opts.maxChunkSize)
            ++ truncationMarker
        else fileBlock
      some { filePath := filePath, changeType := changeType, content := content,
             linesAdded := linesAdded, linesDeleted := linesDeleted,
             priority := calculatePriority filePath changeType linesAdded linesDeleted }

/-- Worker for `splitIntoChunks`: parse blocks in order, keep the parsed
chunks, and stop as soon as `maxFiles` chunks have been produced (the check
runs after each block, matching the `break` in the `for` loop). -/
def splitIntoChunksGo (opts : ProcessorOptions) :
    List (List Char) → List DiffChunk → List DiffChunk
  | [], acc => acc.reverse
  | b :: bs, acc =>
    let acc' :=
      match parseFileChunk opts b with
      | some c => c :: acc
      | none => acc
    if opts.maxFiles ≤ acc'.length then acc'.reverse
    else splitIntoChunksGo opts bs acc'

/-- `splitIntoChunks(diff)`: split into per-file blocks, parse each, stop at
`maxFiles`. -/
def splitIntoChunks (opts : ProcessorOptions) (diff : List Char) : List DiffChunk :=
  splitIntoChunksGo opts (splitDiffBlocks diff) []

/-- Insert a chunk after every already-placed chunk of strictly higher
priority (the stable position for an element arriving later). -/
def insertByPriority (c : DiffChunk) : List DiffChunk → List DiffChunk
  | [] => [c]
  | d :: ds => if c.priority < d.priority then d :: insertByPriority c ds else c :: d :: ds

/-- `prioritizeChunks(chunks)`: `chunks.sort((a, b) => b.priority - a.priority)`.
`Array.prototype.sort` is stable (ES2019), so its result is the unique
priority-descending order preserving the original order on ties, computed
here by stable insertion. -/
def prioritizeChunks : List DiffChunk → List DiffChunk
  | [] => []
  | c :: cs => insertByPriority c (prioritizeChunks cs)

/-- Worker for `selectMostImportantChunks` with the running byte total. -/
def selectGo (opts : ProcessorOptions) : List DiffChunk → Nat → List DiffChunk
  | [], _ => []
  | c :: cs, currentSize =>
    if currentSize + c.content.length ≤ opts.maxTotalSize then
      c :: selectGo opts cs (currentSize + c.content.length)
    else
      let remainingSpace := opts.maxTotalSize - currentSize
      if 1000 < remainingSpace then
        [{ c with content := c.content.take (remainingSpace - 100) ++ truncationMarker }]
      else
        []

/-- `selectMostImportantChunks(chunks)`: greedily take chunks while the byte
budget holds; on first overflow, admit one truncated copy if more than 1000
bytes remain, then stop. -/
def selectMostImportantChunks (opts : ProcessorOptions) (chunks : List DiffChunk) :
    List DiffChunk :=
  selectGo opts chunks 0

/-- Decimal digit character. -/
def digitChar : Nat → Char
  | 0 => '0' | 1 => '1' | 2 => '2' | 3 => '3' | 4 => '4'
  | 5 => '5' | 6 => '6' | 7 => '7' | 8 => '8' | _ => '9'

/-- Fuelled decimal rendering worker (fuel bounds the digit count). -/
def natToCharsGo : Nat → Nat → List Char → List Char
  | 0, _, acc => acc
  | fuel + 1, n, acc =>
    if n < 10 then digitChar n :: acc
    else natToCharsGo fuel (n / 10) (digitChar (n % 10) :: acc)

/-- Decimal rendering of a natural number, as JavaScript template
interpolation renders integers. -/
def natToChars (n : Nat) : List Char := natToCharsGo (n + 1) n []

/-- Decimal rendering of an integer. -/
def intToChars (i : Int) : List Char :=
  if i < 0 then '-' :: natToChars (-i).toNat else natToChars i.toNat

/-- `generateSummary(chunks)`: file counts by change type (zero counts
omitted, matching the falsiness test on the missing record fields) and total
line counts, joined with `", "`. -/
def generateSummary (chunks : List DiffChunk) : List Char :=
  let totalFiles := chunks.length
  let addedCount := (chunks.filter fun c => c.changeType == .added).length
  let deletedCount := (chunks.filter fun c => c.changeType == .deleted).length
  let modifiedCount := (chunks.filter fun c => c.changeType == .modified).length
  let renamedCount := (chunks.filter fun c => c.changeType == .renamed).length
  let totalLinesAdded := chunks.foldl (fun s c => s + c.linesAdded) 0
  let totalLinesDeleted := chunks.foldl (fun s c => s + c.linesDeleted) 0
  let parts : List (List Char) :=
    [natToChars totalFiles ++ " files changed".data]
    ++ (if addedCount ≠ 0 then [natToChars addedCount ++ " added".data] else [])
    ++ (if deletedCount ≠ 0 then [natToChars deletedCount ++ " deleted".data] else [])
    ++ (if modifiedCount ≠ 0 then [natToChars modifiedCount ++ " modified".data] else [])
    ++ (if renamedCount ≠ 0 then [natToChars renamedCount ++ " renamed".data] else [])
    ++ [('+' :: natToChars totalLinesAdded) ++ "/-".data
        ++ natToChars totalLinesDeleted ++ " lines".data]
  List.intercalate ", ".data parts

/-- `processDiff(diff)`.  `Array.prototype.sort` mutates in place, so after
`prioritizeChunks` the local `chunks` array IS the sorted array; the
aggregate fields are therefore computed over the sorted list (same values as
over the discovery order, being order-insensitive). -/
def processDiff (opts : ProcessorOptions) (diff : List Char) : ProcessedDiff :=
  let chunks := splitIntoChunks opts diff
  let prioritizedChunks := prioritizeChunks chunks
  let selectedChunks := selectMostImportantChunks opts prioritizedChunks
  { chunks := selectedChunks
    summary := generateSummary prioritizedChunks
    totalFiles := prioritizedChunks.length
    totalLinesAdded := prioritizedChunks.foldl (fun s c => s + c.linesAdded) 0
    totalLinesDeleted := prioritizedChunks.foldl (fun s c => s + c.linesDeleted) 0
    isTruncated := decide (selectedChunks.length < prioritizedChunks.length) }

/-- The processing strategy of `EnhancedOpenAIService.generateCommitMessage`
(`'direct' | 'chunked' | 'summarized'`). -/
inductive Strategy where
  | direct
  | chunked
  | summarized
deriving DecidableEq

/-- The size/summarization configuration of `EnhancedOpenAIService` after its
constructor resolved the defaults: `maxDirectSize`, `enableSummarization`,
and the options handed to its `DiffProcessor`. -/
structure ServiceOptions where
  maxDirectSize : Nat
  enableSummarization : Bool
  processorOptions : ProcessorOptions
deriving DecidableEq

/-- The `DiffProcessor` options built in the `EnhancedOpenAIService`
constructor: 50 KiB chunks, 400 KiB total, 100 files. -/
def serviceProcessorOptions : ProcessorOptions :=
  { maxChunkSize := 50 * 1024, maxTotalSize := 400 * 1024, maxFiles := 100 }

/-- `EnhancedOpenAIService` constructor defaults: `maxDirectSize` 100 KiB,
summarization enabled. -/
def defaultServiceOptions : ServiceOptions :=
  { maxDirectSize := 100 * 1024, enableSummarization := true,
    processorOptions := serviceProcessorOptions }

/-- The lowercase strategy-facing name of a change type. -/
def changeTypeName : ChangeType → List Char
  | .added => "added".data
  | .deleted => "deleted".data
  | .modified => "modified".data
  | .renamed => "renamed".data

/-- One chunk's annotated entry inside `createChunkedDiff`. -/
def chunkedEntry (c : DiffChunk) : List Char :=
  "File: ".data ++ c.filePath ++ " (".data ++ changeTypeName c.changeType
    ++ ", +".data ++ natToChars c.linesAdded ++ "/-".data ++ natToChars c.linesDeleted
    ++ " lines, priority: ".data ++ intToChars c.priority ++ ")\n".data ++ c.content

/-- `createChunkedDiff(processedInfo)`: aggregate header followed by the
annotated selected chunks joined with a separator. -/
def createChunkedDiff (pd : ProcessedDiff) : List Char :=
  let chunksTxt := List.intercalate "\n\n---\n\n".data (pd.chunks.map chunkedEntry)
  let header :=
    "DIFF SUMMARY: ".data ++ pd.summary ++ "\n".data
    ++ "Files processed: ".data ++ natToChars pd.chunks.length ++ "/".data
    ++ natToChars pd.totalFiles ++ "\n".data
    ++ (if pd.isTruncated then "Note: Some files were truncated due to size limits.\n".data
        else [])
    ++ "\n---\n\n".data
  header ++ chunksTxt

/-- One line of the `FILES CHANGED:` list in `createSummarizedDiff`; note it
is built from `processedInfo.chunks`, the chunks SELECTED by the budgeter. -/
def summarizedFileLine (c : DiffChunk) : List Char :=
  c.filePath ++ ": ".data ++ changeTypeName c.changeType ++ " (+".data
    ++ natToChars c.linesAdded ++ "/-".data ++ natToChars c.linesDeleted ++ ")".data

/-- The file-list lines of `createSummarizedDiff` (`filesSummary`), one per
SELECTED chunk. -/
def summarizedFileLines (pd : ProcessedDiff) : List (List Char) :=
  pd.chunks.map summarizedFileLine

/-- The chunks whose bodies are excerpted in `createSummarizedDiff`:
`processedInfo.chunks.filter(priority >= 4).slice(0, 5)`. -/
def summarizedExcerptChunks (pd : ProcessedDiff) : List DiffChunk :=
  (pd.chunks.filter fun c => 4 ≤ c.priority).take 5

/-- One body excerpt of `createSummarizedDiff`:
`` `${filePath}:\n${content.substring(0, 2000)}...` ``. -/
def summarizedExcerpt (c : DiffChunk) : List Char :=
  c.filePath ++ ":\n".data ++ c.content.take 2000 ++ "...".data

/-- `createSummarizedDiff(processedInfo)` (async in the source but pure). -/
def createSummarizedDiff (pd : ProcessedDiff) : List Char :=
  let filesSummary := List.intercalate "\n".data (summarizedFileLines pd)
  let importantChunks :=
    List.intercalate "\n\n".data ((summarizedExcerptChunks pd).map summarizedExcerpt)
  "LARGE DIFF SUMMARY (".data ++ natToChars pd.totalFiles ++ " files, ".data
    ++ natToChars pd.totalLinesAdded ++ "+ ".data ++ natToChars pd.totalLinesDeleted
    ++ "- lines)\n\nFILES CHANGED:\n".data ++ filesSummary
    ++ "\n\nKEY CHANGES (most important files):\n".data ++ importantChunks
    ++ "\n\nNote: This is a summarized view of a large changeset. Full details were truncated.".data

/-- The strategy decision of `generateCommitMessage`: direct for raw size at
most `maxDirectSize`; otherwise summarized when summarization is enabled and
the processed diff is truncated, else chunked. -/
def strategyOf (so : ServiceOptions) (gitDiff : List Char) : Strategy :=
  if gitDiff.length ≤ so.maxDirectSize then .direct
  else if so.enableSummarization && (processDiff so.processorOptions gitDiff).isTruncated then
    .summarized
  else .chunked

/-- The `processedDiff` payload computed by `generateCommitMessage` before
prompt construction. -/
def processedPayload (so : ServiceOptions) (gitDiff : List Char) : List Char :=
  if gitDiff.length ≤ so.maxDirectSize then gitDiff
  else
    let pd := processDiff so.processorOptions gitDiff
    if so.enableSummarization && pd.isTruncated then createSummarizedDiff pd
    else createChunkedDiff pd

/-- The `processingInfo` record returned by `generateCommitMessage`. -/
structure ProcessingInfo where
  originalSize : Nat
  processedSize : Nat
  filesAnalyzed : Nat
  totalFiles : Nat
  wasTruncated : Bool
  processingStrategy : Strategy
deriving DecidableEq

/-- The `processingInfo` computation of `generateCommitMessage`:
`processedInfo` stays `null` on the direct path, and the record is built with
`processedInfo?.chunks.length || 1`, `processedInfo?.totalFiles || 1` and
`processedInfo?.isTruncated || false` (`||` maps the falsy `0` to `1`). -/
def processingInfoOf (so : ServiceOptions) (gitDiff : List Char) : ProcessingInfo :=
  let pInfo : Option ProcessedDiff :=
    if gitDiff.length ≤ so.maxDirectSize then none
    else some (processDiff so.processorOptions gitDiff)
  { originalSize := gitDiff.length
    processedSize := (processedPayload so gitDiff).length
    filesAnalyzed :=
      match pInfo with
      | none => 1
      | some pd => if pd.chunks.length = 0 then 1 else pd.chunks.length
    totalFiles :=
      match pInfo with
      | none => 1
      | some pd => if pd.totalFiles = 0 then 1 else pd.totalFiles
    wasTruncated :=
      match pInfo with
      | none => false
      | some pd => pd.isTruncated
    processingStrategy := strategyOf so gitDiff }

/-- The identity of a chunk apart from its body: path, change type, line
counts, and priority.  Budget truncation rewrites only `content`, so this key
tracks which underlying file a selected chunk came from. -/
def chunkKey (c : DiffChunk) : List Char × ChangeType × Nat × Nat × Int :=
  (c.filePath, c.changeType, c.linesAdded, c.linesDeleted, c.priority)

/-- The additive normal form of `calculatePriority`: base 3 plus independent
summed deltas — one per conditional of the source, with the three
"high-signal" path conditions (manifests, README/CHANGELOG, config files)
each contributing their own +1 — clamped to `[1, 5]`. -/
def calculatePriorityFormula (filePath : List Char) (changeType : ChangeType)
    (linesAdded linesDeleted : Nat) : Int :=
  let manifestDelta : Int :=
    if containsSubstr filePath "package.json".data ||
       containsSubstr filePath "Cargo.toml".data then 1 else 0
  let readmeDelta : Int :=
    if containsSubstr filePath "README".data ||
       containsSubstr filePath "CHANGELOG".data then 1 else 0
  let configDelta : Int :=
    if containsSubstr filePath ".config".data ||
       containsSubstr filePath "Dockerfile".data then 1 else 0
  let sourceDelta : Int := if hasSourceExt filePath then 1 else 0
  let testDelta : Int :=
    if containsSubstr filePath "test".data ||
       containsSubstr filePath "spec".data ||
       containsSubstr filePath "__tests__".data ||
       containsSubstr filePath ".test.".data then 1 else 0
  let generatedDelta : Int :=
    if containsSubstr filePath "node_modules".data ||
       containsSubstr filePath "dist/".data ||
       containsSubstr filePath "build/".data ||
       containsSubstr filePath ".min.".data then 2 else 0
  let sizeDelta : Int :=
    if 100 < linesAdded + linesDeleted then 1
    else if linesAdded + linesDeleted < 5 then -1
    else 0
  let kindDelta : Int := if changeType == .added || changeType == .deleted then 1 else 0
  max 1 (min 5 (3 + manifestDelta + readmeDelta + configDelta + sourceDelta
    - testDelta - generatedDelta + sizeDelta + kindDelta))

/-- Modelled from claim C4's wording: base 3 plus summed deltas where a path
matching the high-signal set (dependency manifests, README/CHANGELOG,
build/config files) contributes "+1 in total, not more", the other deltas as
in the source, clamped to `[1, 5]`.  Used only to exhibit the divergence from
`calculatePriority`. -/
def claimedPriorityC4 (filePath : List Char) (changeType : ChangeType)
    (linesAdded linesDeleted : Nat) : Int :=
  let highSignalDelta : Int :=
    if containsSubstr filePath "package.json".data ||
       containsSubstr filePath "Cargo.toml".data ||
       containsSubstr filePath "README".data ||
       containsSubstr filePath "CHANGELOG".data ||
       containsSubstr filePath ".config".data ||
       containsSubstr filePath "Dockerfile".data then 1 else 0
  let sourceDelta : Int := if hasSourceExt filePath then 1 else 0
  let testDelta : Int :=
    if containsSubstr filePath "test".data ||
       containsSubstr filePath "spec".data ||
       containsSubstr filePath "__tests__".data ||
       containsSubstr filePath ".test.".data then 1 else 0
  let generatedDelta : Int :=
    if containsSubstr filePath "node_modules".data ||
       containsSubstr filePath "dist/".data ||
       containsSubstr filePath "build/".data ||
       containsSubstr filePath ".min.".data then 2 else 0
  let sizeDelta : Int :=
    if 100 < linesAdded + linesDeleted then 1
    else if linesAdded + linesDeleted < 5 then -1
    else 0
  let kindDelta : Int := if changeType == .added || changeType == .deleted then 1 else 0
  max 1 (min 5 (3 + highSignalDelta + sourceDelta - testDelta - generatedDelta
    + sizeDelta + kindDelta))

/-! Concrete inputs used by the counterexamples and witnesses. -/

/-- A small-budget processor configuration (chunk truncation disabled by a
large `maxChunkSize`, 1200-byte total budget). -/
def cfgSmallBudget : ProcessorOptions :=
  { maxChunkSize := 100000, maxTotalSize := 1200, maxFiles := 50 }

/-- Service configuration around `cfgSmallBudget` with a 50-byte direct
threshold and summarization enabled. -/
def soSmall : ServiceOptions :=
  { maxDirectSize := 50, enableSummarization := true, processorOptions := cfgSmallBudget }

/-- First file block of `diffA` (100 bytes, path `a.ts`). -/
def blockA1 : List Char :=
  "diff --git a/a.ts b/a.ts\n".data ++ List.replicate 74 'x' ++ ['\n']

/-- Second file block of `diffA` (1200 bytes, path `b.ts`). -/
def blockA2 : List Char :=
  "diff --git a/b.ts b/b.ts\n".data ++ List.replicate 1174 'x' ++ ['\n']

/-- Third file block of `diffA` (40 bytes, path `zz.go`). -/
def blockA3 : List Char :=
  "diff --git a/zz.go b/zz.go\n".data ++ List.replicate 13 'x'

/-- A 1340-byte diff with three file sections; under `cfgSmallBudget` the
third section is dropped by the budgeter. -/
def diffA : List Char := blockA1 ++ blockA2 ++ blockA3

/-- A 1400-byte diff with a single file section; under `cfgSmallBudget` its
body is budget-truncated but no section is dropped. -/
def diffB : List Char := "diff --git a/a.ts b/a.ts\n".data ++ List.replicate 1375 'x'

/-- Plain prose containing no `diff --git` marker and no hunk header. -/
def dProse : List Char := "This is just some plain prose with no markers at all.".data

/-- Processor configuration with a pathologically small `maxChunkSize`. -/
def opts50 : ProcessorOptions :=
  { maxChunkSize := 50, maxTotalSize := 500 * 1024, maxFiles := 50 }

/-- A 60-byte file block, oversized for `opts50`. -/
def blk50 : List Char := "diff --git a/f b/f\n".data ++ List.replicate 41 'x'

/-- Processor configuration with `maxChunkSize` 130, comfortably above the
19-byte header line plus the 100-byte reserve of `findGoodTruncationPoint`. -/
def opts130 : ProcessorOptions :=
  { maxChunkSize := 130, maxTotalSize := 500 * 1024, maxFiles := 50 }

/-- A 139-byte file block, oversized for `opts130`. -/
def blk130 : List Char := "diff --git a/f b/f\n".data ++ List.replicate 120 'x'

/-- A tiny diff with two file sections, below every direct-size threshold. -/
def dTwoSections : List Char := "diff --git a/a b/a\ndiff --git a/b b/b\n".data

/-- The chunk `parseFileChunk` produces from `blk130` under `opts130`: the
139-byte block is truncated at the fallback point `130 - 100 = 30` and the
marker appended. -/
def blk130Chunk : DiffChunk :=
  { filePath := "f".data, changeType := ChangeType.modified,
    content := "diff --git a/f b/f\n".data ++ List.replicate 11 'x' ++ truncationMarker,
    linesAdded := 0, linesDeleted := 0, priority := 2 }

/-! Helper lemmas. -/

theorem truncationMarker_length : truncationMarker.length = 16 := by decide

/-- The running-total invariant of the greedy selection loop: starting from a
total within budget, the selected bodies never push the total past
`maxTotalSize` (the truncated trailing copy leaves 84 bytes of the remaining
space unused). -/
theorem selectGo_budget (opts : ProcessorOptions) :
    ∀ (l : List DiffChunk) (cur : Nat), cur ≤ opts.maxTotalSize →
      cur + ((selectGo opts l cur).map fun c => c.content.length).sum ≤ opts.maxTotalSize := by
  intro l
  induction l with
  | nil => intro cur h; simpa [selectGo] using h
  | cons c cs ih =>
    intro cur h
    by_cases h1 : cur + c.content.length ≤ opts.maxTotalSize
    · simp only [selectGo, if_pos h1, List.map_cons, List.sum_cons]
      have h2 := ih (cur + c.content.length) h1
      omega
    · simp only [selectGo, if_neg h1]
      by_cases h2 : 1000 < opts.maxTotalSize - cur
      · simp only [if_pos h2, List.map_cons, List.map_nil, List.sum_cons, List.sum_nil,
          List.length_append, List.length_take]
        have h3 := truncationMarker_length
        omega
      · simp only [if_neg h2, List.map_nil, List.sum_nil]
        omega

/-- Claim C1: for every input diff and configuration, the sum of body lengths
over the units selected by the budgeter (returned as `ProcessedDiff.chunks`),
including any trailing partially-truncated unit with its appended truncation
marker, is at most `maxTotalSize` plus bounded slack for one truncation
marker. -/
theorem C1_budget_invariant (opts : ProcessorOptions) (diff : List Char) :
    (((processDiff opts diff).chunks.map fun c => c.content.length)).sum
      ≤ opts.maxTotalSize + truncationMarker.length := by
  have h := selectGo_budget opts (prioritizeChunks (splitIntoChunks opts diff)) 0
    (Nat.zero_le _)
  simp only [processDiff, selectMostImportantChunks] at h ⊢
  omega

/-- Claim C2 (amended): `isTruncated` is true exactly when the number of
selected units is smaller than `totalFiles`; body shortening alone never sets
the flag. -/
theorem C2_isTruncated_iff (opts : ProcessorOptions) (diff : List Char) :
    (processDiff opts diff).isTruncated = true ↔
      (processDiff opts diff).chunks.length < (processDiff opts diff).totalFiles := by
  simp [processDiff, selectMostImportantChunks]

/-- Claim C2 counterexample: under `cfgSmallBudget`, the single unit of
`diffB` is budget-truncated from 1400 to 1116 bytes, yet `isTruncated` is
`false` because no unit was dropped — refuting `isTruncated` ⇔ (dropped ∨
shortened). -/
theorem C2_counterexample :
    (processDiff cfgSmallBudget diffB).isTruncated = false ∧
    (processDiff cfgSmallBudget diffB).totalFiles = 1 ∧
    ((processDiff cfgSmallBudget diffB).chunks.map fun c => c.content.length) = [1116] ∧
    ((splitIntoChunks cfgSmallBudget diffB).map fun c => c.content.length) = [1400] := by
  decide

/-- Rewriting shape: a conditional increment is the unconditional sum of a
conditional delta. -/
theorem ite_add_shape (c : Prop) [Decidable c] (p q : Int) :
    (if c then p + q else p) = p + (if c then q else 0) := by
  split <;> simp

/-- Rewriting shape: a conditional decrement is the unconditional difference
of a conditional delta. -/
theorem ite_sub_shape (c : Prop) [Decidable c] (p q : Int) :
    (if c then p - q else p) = p - (if c then q else 0) := by
  split <;> simp

/-- Rewriting shape for the two-sided size adjustment. -/
theorem ite_elif_shape (c1 c2 : Prop) [Decidable c1] [Decidable c2] (p : Int) :
    (if c1 then p + 1 else if c2 then p - 1 else p) =
      p + (if c1 then 1 else if c2 then -1 else 0) := by
  by_cases h1 : c1 <;> by_cases h2 : c2 <;> simp [h1, h2, Int.sub_eq_add_neg]

/-- Claim C4 (amended): `calculatePriority` equals the additive formula with
base 3, clamped to `[1, 5]`, in which the three high-signal path conditions
(dependency manifests, README/CHANGELOG, config/Dockerfile) each contribute
an independent +1 and can stack. -/
theorem C4_priority_formula (filePath : List Char) (changeType : ChangeType)
    (linesAdded linesDeleted : Nat) :
    calculatePriority filePath changeType linesAdded linesDeleted =
      calculatePriorityFormula filePath changeType linesAdded linesDeleted := by
  unfold calculatePriority calculatePriorityFormula
  simp only [ite_elif_shape]
  simp only [ite_add_shape, ite_sub_shape]

/-- Claim C4 counterexample: the path `README.config` matches two distinct
high-signal conditions, so the code scores it `3 + 1 + 1 = 5`, while the
claim's "+1 in total, not more" predicts `4`. -/
theorem C4_counterexample :
    calculatePriority "README.config".data ChangeType.modified 5 5 = 5 ∧
    claimedPriorityC4 "README.config".data ChangeType.modified 5 5 = 4 := by
  decide

/-- Claim C5: exactly one strategy is chosen — `direct` iff the raw size is
at most `maxDirectSize` (forwarding the raw diff unmodified), `summarized`
iff the size exceeds `maxDirectSize`, the processed diff is truncated, and
summarization is enabled, and `chunked` iff the size exceeds `maxDirectSize`
and summarization is disabled or the processed diff is not truncated. -/
theorem C5_strategy_characterization (so : ServiceOptions) (d : List Char) :
    (strategyOf so d = Strategy.direct ↔ d.length ≤ so.maxDirectSize) ∧
    (strategyOf so d = Strategy.summarized ↔
      (so.maxDirectSize < d.length ∧ so.enableSummarization = true ∧
        (processDiff so.processorOptions d).isTruncated = true)) ∧
    (strategyOf so d = Strategy.chunked ↔
      (so.maxDirectSize < d.length ∧
        (so.enableSummarization = false ∨
          (processDiff so.processorOptions d).isTruncated = false))) ∧
    (d.length ≤ so.maxDirectSize → processedPayload so d = d) := by
  by_cases h1 : d.length ≤ so.maxDirectSize
  · have hs : strategyOf so d = Strategy.direct := by
      unfold strategyOf; rw [if_pos h1]
    have hp : processedPayload so d = d := by
      unfold processedPayload; rw [if_pos h1]
    refine ⟨⟨fun _ => h1, fun _ => hs⟩, ⟨?_, ?_⟩, ⟨?_, ?_⟩, fun _ => hp⟩
    · intro h; rw [hs] at h; cases h
    · rintro ⟨h, -⟩; omega
    · intro h; rw [hs] at h; cases h
    · rintro ⟨h, -⟩; omega
  · have h1' : so.maxDirectSize < d.length := by omega
    have hstep : strategyOf so d =
        (if so.enableSummarization && (processDiff so.processorOptions d).isTruncated
          then Strategy.summarized else Strategy.chunked) := by
      unfold strategyOf; rw [if_neg h1]
    cases he : so.enableSummarization <;>
      cases ht : (processDiff so.processorOptions d).isTruncated <;>
        rw [he, ht] at hstep <;> simp only [Bool.and_self, Bool.false_and, Bool.and_false,
          Bool.true_and, Bool.and_true, if_true, if_false, Bool.false_eq_true,
          if_neg Bool.false_ne_true] at hstep
    · refine ⟨⟨?_, fun h => absurd h h1⟩, ⟨?_, ?_⟩, ⟨fun _ => ⟨h1', Or.inl rfl⟩, fun _ => hstep⟩,
        fun h => absurd h h1⟩
      · intro h; rw [hstep] at h; cases h
      · intro h; rw [hstep] at h; cases h
      · rintro ⟨-, hs, -⟩; cases hs
    · refine ⟨⟨?_, fun h => absurd h h1⟩, ⟨?_, ?_⟩, ⟨fun _ => ⟨h1', Or.inl rfl⟩, fun _ => hstep⟩,
        fun h => absurd h h1⟩
      · intro h; rw [hstep] at h; cases h
      · intro h; rw [hstep] at h; cases h
      · rintro ⟨-, hs, -⟩; cases hs
    · refine ⟨⟨?_, fun h => absurd h h1⟩, ⟨?_, ?_⟩, ⟨fun _ => ⟨h1', Or.inr rfl⟩, fun _ => hstep⟩,
        fun h => absurd h h1⟩
      · intro h; rw [hstep] at h; cases h
      · intro h; rw [hstep] at h; cases h
      · rintro ⟨-, -, hs⟩; cases hs
    · refine ⟨⟨?_, fun h => absurd h h1⟩, ⟨fun _ => ⟨h1', rfl, rfl⟩, fun _ => hstep⟩,
        ⟨?_, ?_⟩, fun h => absurd h h1⟩
      · intro h; rw [hstep] at h; cases h
      · intro h; rw [hstep] at h; cases h
      · rintro ⟨-, hs | hs⟩ <;> cases hs

/-- Claim C5 witness at a concrete direct-path input. -/
theorem C5_witness :
    dTwoSections.length ≤ defaultServiceOptions.maxDirectSize ∧
    processedPayload defaultServiceOptions dTwoSections = dTwoSections :=
  ⟨by decide, (C5_strategy_characterization defaultServiceOptions dTwoSections).2.2.2 (by decide)⟩

/-- Claim C9 (amended): for a fixed configuration the strategy is monotone
only across the direct boundary — an input larger than another non-direct
input is never handled by the `direct` strategy; between `chunked` and
`summarized` the choice depends on truncation of the content, not on size. -/
theorem C9_direct_monotone (so : ServiceOptions) (d1 d2 : List Char)
    (h0 : so.maxDirectSize < d1.length) (h : d1.length ≤ d2.length) :
    strategyOf so d1 ≠ Strategy.direct ∧ strategyOf so d2 ≠ Strategy.direct := by
  unfold strategyOf
  constructor
  · rw [if_neg (by omega)]
    split <;> simp
  · rw [if_neg (by omega)]
    split <;> simp

/-- Claim C9 witness: the amended monotonicity applied to `diffA ≤ diffB`. -/
theorem C9_witness :
    (soSmall.maxDirectSize < diffA.length ∧ diffA.length ≤ diffB.length) ∧
    (strategyOf soSmall diffA ≠ Strategy.direct ∧
     strategyOf soSmall diffB ≠ Strategy.direct) :=
  ⟨by decide, C9_direct_monotone soSmall diffA diffB (by decide) (by decide)⟩

/-- Claim C9 counterexample: `diffA` (1340 bytes) is handled by the
`summarized` strategy while the larger `diffB` (1400 bytes) is handled by
`chunked` under the same configuration — the strategy moves backward along
Summarized → Chunked as the raw size grows. -/
theorem C9_counterexample :
    diffA.length ≤ diffB.length ∧
    strategyOf soSmall diffA = Strategy.summarized ∧
    strategyOf soSmall diffB = Strategy.chunked := by
  decide

/-- Claim C10: on the direct path (raw size at most `maxDirectSize`) the
`processingInfo` record always reports `filesAnalyzed = 1`, `totalFiles = 1`
and `wasTruncated = false`, because the splitter is bypassed and
`processedInfo` stays `null`. -/
theorem C10_direct_processingInfo (so : ServiceOptions) (d : List Char)
    (h : d.length ≤ so.maxDirectSize) :
    (processingInfoOf so d).filesAnalyzed = 1 ∧
    (processingInfoOf so d).totalFiles = 1 ∧
    (processingInfoOf so d).wasTruncated = false := by
  unfold processingInfoOf
  simp [if_pos h]

/-- Membership in a stable insertion: the inserted element or an original
one. -/
theorem mem_insertByPriority {c x : DiffChunk} : ∀ {l : List DiffChunk},
    x ∈ insertByPriority c l ↔ x = c ∨ x ∈ l := by
  intro l
  induction l with
  | nil => simp [insertByPriority]
  | cons d ds ih =>
    simp only [insertByPriority]
    split
    · simp only [List.mem_cons, ih]
      tauto
    · simp [List.mem_cons]

/-- Stable insertion preserves the priority-descending pairwise order. -/
theorem pairwise_insertByPriority {c : DiffChunk} : ∀ {l : List DiffChunk},
    l.Pairwise (fun a b => b.priority ≤ a.priority) →
    (insertByPriority c l).Pairwise (fun a b => b.priority ≤ a.priority) := by
  intro l
  induction l with
  | nil => intro _; simp [insertByPriority]
  | cons d ds ih =>
    intro h
    rcases List.pairwise_cons.mp h with ⟨hd, hds⟩
    simp only [insertByPriority]
    split
    · rename_i hlt
      refine List.pairwise_cons.mpr ⟨?_, ih hds⟩
      intro x hx
      rcases mem_insertByPriority.mp hx with rfl | hx
      · omega
      · exact hd x hx
    · rename_i hge
      refine List.pairwise_cons.mpr ⟨?_, h⟩
      intro x hx
      rcases List.mem_cons.mp hx with rfl | hx
      · omega
      · have := hd x hx
        omega

/-- The sorted output of `prioritizeChunks` is priority-descending. -/
theorem pairwise_prioritizeChunks (l : List DiffChunk) :
    (prioritizeChunks l).Pairwise (fun a b => b.priority ≤ a.priority) := by
  induction l with
  | nil => simp [prioritizeChunks]
  | cons c cs ih => exact pairwise_insertByPriority ih

/-- Stability of the insertion: restricted to any fixed priority `p`, the
inserted element lands in front of the equal-priority elements already
present exactly when it carries priority `p`. -/
theorem filter_insertByPriority (p : Int) (c : DiffChunk) : ∀ (l : List DiffChunk),
    (insertByPriority c l).filter (fun d => d.priority == p) =
      (if c.priority == p
        then c :: l.filter (fun d => d.priority == p)
        else l.filter (fun d => d.priority == p)) := by
  intro l
  induction l with
  | nil => simp only [insertByPriority, List.filter_cons, List.filter_nil]
  | cons d ds ih =>
    simp only [insertByPriority]
    split
    · rename_i hlt
      rw [List.filter_cons, ih]
      by_cases hc : (c.priority == p) = true
      · have hcp : c.priority = p := by simpa using hc
        have hd : (d.priority == p) = false := by
          simp only [beq_eq_false_iff_ne, ne_eq]
          omega
        simp [hc, hd, List.filter_cons]
      · have hc' : (c.priority == p) = false := by simpa using hc
        simp [hc', List.filter_cons]
    · rw [List.filter_cons]

/-- Stability of the full sort: the elements of any fixed priority appear in
`prioritizeChunks l` exactly in their original order. -/
theorem filter_prioritizeChunks (p : Int) (l : List DiffChunk) :
    (prioritizeChunks l).filter (fun d => d.priority == p) =
      l.filter (fun d => d.priority == p) := by
  induction l with
  | nil => rfl
  | cons c cs ih =>
    simp only [prioritizeChunks]
    rw [filter_insertByPriority, ih, List.filter_cons]

/-- Up to bodies (`chunkKey`), the budgeter's selection is a prefix of its
input list. -/
theorem selectGo_key_pre (opts : ProcessorOptions) : ∀ (l : List DiffChunk) (cur : Nat),
    ∃ t, ((selectGo opts l cur).map chunkKey) ++ t = l.map chunkKey := by
  intro l
  induction l with
  | nil => exact fun _ => ⟨[], rfl⟩
  | cons c cs ih =>
    intro cur
    simp only [selectGo]
    split
    · rcases ih (cur + c.content.length) with ⟨t, ht⟩
      refine ⟨t, ?_⟩
      simp only [List.map_cons, List.cons_append, ht]
    · split
      · exact ⟨cs.map chunkKey, by simp [chunkKey]⟩
      · exact ⟨(c :: cs).map chunkKey, by simp⟩

/-- Every selected chunk carries the priority of some input chunk. -/
theorem mem_selectGo_priority (opts : ProcessorOptions) : ∀ (l : List DiffChunk) (cur : Nat)
    (x : DiffChunk), x ∈ selectGo opts l cur → ∃ y ∈ l, x.priority = y.priority := by
  intro l
  induction l with
  | nil => intro cur x hx; simp [selectGo] at hx
  | cons c cs ih =>
    intro cur x hx
    simp only [selectGo] at hx
    split at hx
    · rcases List.mem_cons.mp hx with heq | hx
      · exact ⟨c, List.mem_cons_self c cs, by rw [heq]⟩
      · rcases ih _ x hx with ⟨y, hy, he⟩
        exact ⟨y, List.mem_cons_of_mem _ hy, he⟩
    · split at hx
      · rcases List.mem_singleton.mp hx with heq
        exact ⟨c, List.mem_cons_self c cs, by rw [heq]⟩
      · simp at hx

/-- The budgeter's selection preserves the priority-descending pairwise
order. -/
theorem pairwise_selectGo (opts : ProcessorOptions) : ∀ (l : List DiffChunk) (cur : Nat),
    l.Pairwise (fun a b => b.priority ≤ a.priority) →
    (selectGo opts l cur).Pairwise (fun a b => b.priority ≤ a.priority) := by
  intro l
  induction l with
  | nil => intro cur _; simp [selectGo]
  | cons c cs ih =>
    intro cur h
    rcases List.pairwise_cons.mp h with ⟨hc, hcs⟩
    simp only [selectGo]
    split
    · refine List.pairwise_cons.mpr ⟨?_, ih _ hcs⟩
      intro x hx
      rcases mem_selectGo_priority opts cs _ x hx with ⟨y, hy, he⟩
      rw [he]
      exact hc y hy
    · split
      · exact List.pairwise_singleton _ _
      · exact List.Pairwise.nil

/-- Claim C3: the selected sequence `ProcessedDiff.chunks` is sorted by
priority in descending order, and (up to body truncation, i.e. at the level
of `chunkKey`) the selected units of any fixed priority appear as a prefix
of the splitter-discovered units of that priority — equal priorities keep
the original file-discovery order. -/
theorem C3_ordering_invariant (opts : ProcessorOptions) (diff : List Char) :
    ((processDiff opts diff).chunks).Pairwise (fun a b => b.priority ≤ a.priority) ∧
    ∀ p : Int, ∃ t,
      (((processDiff opts diff).chunks.filter fun c => c.priority == p).map chunkKey) ++ t =
        (((splitIntoChunks opts diff).filter fun c => c.priority == p).map chunkKey) := by
  have hchunks : (processDiff opts diff).chunks =
      selectGo opts (prioritizeChunks (splitIntoChunks opts diff)) 0 := rfl
  constructor
  · rw [hchunks]
    exact pairwise_selectGo opts _ 0 (pairwise_prioritizeChunks _)
  · intro p
    rcases selectGo_key_pre opts (prioritizeChunks (splitIntoChunks opts diff)) 0 with ⟨t, ht⟩
    refine ⟨(t.filter fun k => k.2.2.2.2 == p), ?_⟩
    have hfil := congrArg (List.filter fun k : List Char × ChangeType × Nat × Nat × Int =>
      k.2.2.2.2 == p) ht
    rw [List.filter_append] at hfil
    rw [List.filter_map, List.filter_map] at hfil
    rw [hchunks]
    calc ((selectGo opts (prioritizeChunks (splitIntoChunks opts diff)) 0).filter
            (fun c => c.priority == p)).map chunkKey
          ++ (t.filter fun k => k.2.2.2.2 == p)
        = ((prioritizeChunks (splitIntoChunks opts diff)).filter
            (fun c => c.priority == p)).map chunkKey := hfil
      _ = ((splitIntoChunks opts diff).filter (fun c => c.priority == p)).map chunkKey := by
          rw [filter_prioritizeChunks]

/-- Claim C10 witness: a diff with two file sections still reports a single
analyzed file on the direct path. -/
theorem C10_witness :
    dTwoSections.length ≤ defaultServiceOptions.maxDirectSize ∧
    (processingInfoOf defaultServiceOptions dTwoSections).filesAnalyzed = 1 ∧
    (processingInfoOf defaultServiceOptions dTwoSections).totalFiles = 1 ∧
    (processingInfoOf defaultServiceOptions dTwoSections).wasTruncated = false :=
  ⟨by decide, C10_direct_processingInfo defaultServiceOptions dTwoSections (by decide)⟩

/-- Claim C6 (amended): in the summarized payload the body excerpts come only
from selected units with priority at least 4, at most 5 of them, each excerpt
hard-truncated to at most 2000 bytes of body (plus the path, `:`, newline and
`...` decoration); the preceding file-list has one line per SELECTED unit
(`ProcessedDiff.chunks`), not per splitter-discovered unit. -/
theorem C6_summarized_payload (opts : ProcessorOptions) (diff : List Char) :
    (summarizedExcerptChunks (processDiff opts diff)).length ≤ 5 ∧
    List.Forall (fun c => 4 ≤ c.priority) (summarizedExcerptChunks (processDiff opts diff)) ∧
    List.Sublist (summarizedExcerptChunks (processDiff opts diff)) (processDiff opts diff).chunks ∧
    List.Forall (fun c => (summarizedExcerpt c).length ≤ c.filePath.length + 2005)
      (summarizedExcerptChunks (processDiff opts diff)) ∧
    (summarizedFileLines (processDiff opts diff)).length =
      (processDiff opts diff).chunks.length := by
  refine ⟨?_, ?_, ?_, ?_, ?_⟩
  · simp only [summarizedExcerptChunks, List.length_take]
    omega
  · rw [List.forall_iff_forall_mem]
    intro x hx
    have hx' := List.mem_of_mem_take hx
    have hfil := List.of_mem_filter hx'
    exact of_decide_eq_true hfil
  · exact (List.take_sublist _ _).trans (List.filter_sublist _)
  · rw [List.forall_iff_forall_mem]
    intro x hx
    simp only [summarizedExcerpt, List.length_append, List.length_take,
      List.length_cons, List.length_nil]
    omega
  · simp [summarizedFileLines]

/-- Claim C6 counterexample: under `cfgSmallBudget`, the splitter discovers
three units (`a.ts`, `b.ts`, `zz.go`) but the budgeter drops `zz.go`; the
summarized payload's file list covers only the two selected units and the
payload never mentions `zz.go` — refuting "a file-list line for every unit
produced by the Splitter". -/
theorem C6_counterexample :
    ((splitIntoChunks cfgSmallBudget diffA).map fun c => c.filePath) =
      ["a.ts".data, "b.ts".data, "zz.go".data] ∧
    (summarizedFileLines (processDiff cfgSmallBudget diffA)).length = 2 ∧
    containsSubstr (createSummarizedDiff (processDiff cfgSmallBudget diffA))
      "zz.go".data = false := by
  decide

/-- A pattern occurring as a prefix occurs as a substring. -/
theorem containsSubstr_of_isPre {t pat : List Char} (h : pat.isPrefixOf t = true) :
    containsSubstr t pat = true := by
  cases t with
  | nil =>
    cases pat with
    | nil => rfl
    | cons a as => simp [List.isPrefixOf] at h
  | cons c r => simp [containsSubstr, h]

/-- A prefix of a list is a prefix of any right-extension of it. -/
theorem isPre_append {pat v u : List Char} (h : pat.isPrefixOf v = true) :
    pat.isPrefixOf (v ++ u) = true := by
  rw [ List.isPrefixOf_iff_prefix] at h ⊢
  exact h.trans (List.prefix_append _ _)

/-- The empty pattern occurs in every list. -/
theorem containsSubstr_nil_pat (u : List Char) : containsSubstr u [] = true := by
  cases u <;> simp [containsSubstr, List.isPrefixOf]

/-- Substring occurrences survive extension on the right. -/
theorem containsSubstr_append_right {t u pat : List Char}
    (h : containsSubstr t pat = true) : containsSubstr (t ++ u) pat = true := by
  induction t with
  | nil =>
    have hpat : pat = [] := by
      cases pat with
      | nil => rfl
      | cons a as => simp [containsSubstr, List.isEmpty] at h
    rw [hpat]
    exact containsSubstr_nil_pat _
  | cons c t' ih =>
    simp only [containsSubstr, Bool.or_eq_true] at h
    rcases h with h | h
    · have := isPre_append (u := u) h
      simp only [List.cons_append, containsSubstr, Bool.or_eq_true]
      left
      simpa using this
    · simp only [List.cons_append, containsSubstr, Bool.or_eq_true]
      right
      exact ih h

/-- Substring occurrences survive extension on the left. -/
theorem containsSubstr_append_left {t u pat : List Char}
    (h : containsSubstr u pat = true) : containsSubstr (t ++ u) pat = true := by
  induction t with
  | nil => simpa using h
  | cons c t' ih => simp [containsSubstr, ih]

/-- Emptying the line accumulator of `splitLinesGo` factors out as a prepend
of the completed lines. -/
theorem splitLinesGo_acc : ∀ (s cur acc : List Char) (accl : List (List Char)),
    splitLinesGo s cur (acc :: accl) = accl.reverse ++ [acc] ++ splitLinesGo s cur [] := by
  intro s
  induction s with
  | nil =>
    intro cur acc accl
    simp [splitLinesGo]
  | cons c rest ih =>
    intro cur acc accl
    by_cases hc : c = '\n'
    · simp only [splitLinesGo, if_pos hc]
      rw [ih [] cur.reverse (acc :: accl), ih [] cur.reverse ([] : List (List Char))]
      simp
    · simp only [splitLinesGo, if_neg hc]
      exact ih (c :: cur) acc accl

/-- Any line produced by `splitLinesGo s cur []` that starts with `pat` forces
an occurrence of `pat` in `cur.reverse ++ s`. -/
theorem splitLinesGo_line_occurs (pat : List Char) : ∀ (s cur l : List Char),
    l ∈ splitLinesGo s cur [] → pat.isPrefixOf l = true →
    containsSubstr (cur.reverse ++ s) pat = true := by
  intro s
  induction s with
  | nil =>
    intro cur l hl hpre
    simp only [splitLinesGo, List.reverse_cons, List.reverse_nil, List.nil_append,
      List.mem_singleton] at hl
    subst hl
    rw [List.append_nil]
    exact containsSubstr_of_isPre hpre
  | cons c rest ih =>
    intro cur l hl hpre
    by_cases hc : c = '\n'
    · simp only [splitLinesGo, if_pos hc] at hl
      rw [splitLinesGo_acc rest [] cur.reverse []] at hl
      simp only [List.reverse_nil, List.nil_append, List.singleton_append,
        List.mem_cons] at hl
      rcases hl with rfl | hl
      · have h1 := containsSubstr_of_isPre hpre
        exact containsSubstr_append_right h1
      · have h2 := ih [] l hl hpre
        simp only [List.reverse_nil, List.nil_append] at h2
        have h3 : containsSubstr (c :: rest) pat = true := by
          have := containsSubstr_append_left (t := [c]) h2
          simpa using this
        exact containsSubstr_append_left h3
    · simp only [splitLinesGo, if_neg hc] at hl
      have h2 := ih (c :: cur) l hl hpre
      simp only [List.reverse_cons] at h2
      rw [List.append_assoc] at h2
      simpa using h2

/-- If the raw text nowhere contains `diff --git`, `parseFileChunk` rejects
it (its header search fails). -/
theorem parseFileChunk_none (opts : ProcessorOptions) (s : List Char)
    (h : containsSubstr s "diff --git".data = false) : parseFileChunk opts s = none := by
  unfold parseFileChunk
  have hfind : (splitLines s).find? (fun l => "diff --git".data.isPrefixOf l) = none := by
    rw [List.find?_eq_none]
    intro l hl
    intro hcontra
    have h2 := splitLinesGo_line_occurs "diff --git".data s [] l hl hcontra
    simp only [List.reverse_nil, List.nil_append] at h2
    rw [h] at h2
    cases h2
  simp only [hfind]

/-- If the raw text nowhere contains `diff --git`, the splitter leaves it as
one block. -/
theorem splitDiffBlocksGo_no_marker : ∀ (s acc : List Char),
    containsSubstr s "diff --git".data = false →
    splitDiffBlocksGo s acc = [acc.reverse ++ s] := by
  intro s
  induction s with
  | nil =>
    intro acc _
    simp [splitDiffBlocksGo]
  | cons c rest ih =>
    intro acc h
    simp only [containsSubstr, Bool.or_eq_false_iff] at h
    have hpre : ("diff --git".data.isPrefixOf rest) = false := by
      cases rest with
      | nil => decide
      | cons r rs =>
        have h2 := h.2
        simp only [containsSubstr, Bool.or_eq_false_iff] at h2
        exact h2.1
    simp only [splitDiffBlocksGo, hpre, Bool.and_false, if_false]
    rw [ih (c :: acc) (by
      cases rest with
      | nil => rfl
      | cons r rs => exact h.2)]
    simp

/-- Claim C7 (amended): the engine itself performs no structural check and
never fails: an input containing no `diff --git` file-header marker simply
yields zero units from `splitIntoChunks`, and `processDiff` returns normally
with an empty, untruncated result.  Structural rejection of non-diff input
happens only in the upstream validator, outside the engine. -/
theorem C7_engine_never_fails (opts : ProcessorOptions) (s : List Char)
    (h : containsSubstr s "diff --git".data = false) :
    splitIntoChunks opts s = [] ∧
    (processDiff opts s).chunks = [] ∧
    (processDiff opts s).totalFiles = 0 ∧
    (processDiff opts s).isTruncated = false := by
  have hsplit : splitIntoChunks opts s = [] := by
    unfold splitIntoChunks splitDiffBlocks
    cases s with
    | nil => rfl
    | cons c rest =>
      show splitIntoChunksGo opts (splitDiffBlocksGo (c :: rest) []) [] = []
      rw [splitDiffBlocksGo_no_marker (c :: rest) [] h]
      simp only [List.reverse_nil, List.nil_append, splitIntoChunksGo,
        parseFileChunk_none opts _ h]
      split <;> rfl
  refine ⟨hsplit, ?_, ?_, ?_⟩ <;>
    simp [processDiff, hsplit, prioritizeChunks, selectMostImportantChunks, selectGo]

/-- Claim C7 witness: the amended theorem applied to plain prose. -/
theorem C7_witness :
    containsSubstr dProse "diff --git".data = false ∧
    splitIntoChunks defaultProcessorOptions dProse = [] ∧
    (processDiff defaultProcessorOptions dProse).totalFiles = 0 :=
  ⟨by decide, (C7_engine_never_fails defaultProcessorOptions dProse (by decide)).1,
    (C7_engine_never_fails defaultProcessorOptions dProse (by decide)).2.2.1⟩

/-- Claim C7 counterexample: on marker-free prose the engine does not fail
with any error — `splitIntoChunks` (a total function, with no throw in the
source) returns the empty unit list and `processDiff` returns a normal,
empty `ProcessedDiff` value; no `MalformedDiffError` re-verification exists
inside the engine. -/
theorem C7_counterexample :
    splitIntoChunks defaultProcessorOptions dProse = [] ∧
    processDiff defaultProcessorOptions dProse =
      { chunks := [], summary := "0 files changed, +0/-0 lines".data, totalFiles := 0,
        totalLinesAdded := 0, totalLinesDeleted := 0, isTruncated := false } := by
  decide

/-- A successful `jsLastIndexOfNat` names a real occurrence. -/
theorem jsLastIndexOfNat_some {s pat : List Char} {b j : Nat}
    (h : jsLastIndexOfNat s pat b = some j) : pat.isPrefixOf (s.drop j) = true := by
  unfold jsLastIndexOfNat at h
  have hmem := List.mem_of_getLast?_eq_some h
  exact (List.mem_filter.mp hmem).2

/-- A nonnegative `jsLastIndexOf` result names a real occurrence. -/
theorem jsLastIndexOf_occurrence {s pat : List Char} {f i : Int}
    (hres : jsLastIndexOf s pat f = i) (hge : 0 ≤ i) :
    pat.isPrefixOf (s.drop i.toNat) = true := by
  simp only [jsLastIndexOf] at hres
  rcases hj : jsLastIndexOfNat s pat (if f < 0 then 0 else min f.toNat s.length) with _ | j
  · simp only [hj] at hres
    omega
  · simp only [hj] at hres
    have hij : i.toNat = j := by omega
    rw [hij]
    exact jsLastIndexOfNat_some hj

/-- A newline occurring at index `i` bounds the first line's length by `i`. -/
theorem firstLine_le_of_newline_at {rest : List Char} : ∀ {s : List Char} {i : Nat},
    (('\n' :: rest).isPrefixOf (s.drop i)) = true →
    (s.takeWhile fun c => c != '\n').length ≤ i := by
  intro s
  induction s with
  | nil =>
    intro i h
    simp [List.takeWhile]
  | cons c s' ih =>
    intro i h
    cases i with
    | zero =>
      rw [List.drop_zero] at h
      have hc : c = '\n' := by
        simp only [List.isPrefixOf, Bool.and_eq_true, beq_iff_eq] at h
        exact h.1.symm
      subst hc
      simp [List.takeWhile_cons]
    | succ n =>
      have h' : (('\n' :: rest).isPrefixOf (s'.drop n)) = true := by
        simpa [List.drop_succ_cons] using h
      have h2 := ih h'
      rw [List.takeWhile_cons]
      split
      · simp only [List.length_cons]
        omega
      · simp

/-- `takeWhile` is the prefix of its own length. -/
theorem takeWhile_eq_take_len (p : Char → Bool) : ∀ (l : List Char),
    l.takeWhile p = l.take (l.takeWhile p).length := by
  intro l
  induction l with
  | nil => rfl
  | cons c l' ih =>
    rw [List.takeWhile_cons]
    split
    · simp only [List.length_cons, List.take_succ_cons]
      rw [← ih]
    · rfl

/-- `takeWhile` begins every `take` of at least its length. -/
theorem takeWhile_pre_take {p : Char → Bool} {l : List Char} {n : Nat}
    (h : (l.takeWhile p).length ≤ n) : ∃ t, l.takeWhile p ++ t = l.take n := by
  refine ⟨(l.take n).drop (l.takeWhile p).length, ?_⟩
  have h1 : l.takeWhile p = (l.take n).take (l.takeWhile p).length := by
    rw [List.take_take, Nat.min_eq_left h, ← takeWhile_eq_take_len]
  calc l.takeWhile p ++ (l.take n).drop (l.takeWhile p).length
      = (l.take n).take (l.takeWhile p).length
          ++ (l.take n).drop (l.takeWhile p).length := by rw [← h1]
    _ = l.take n := List.take_append_drop _ _

/-- When `maxLength` leaves room for the first line plus the 100-byte
reserve, every branch of `findGoodTruncationPoint` returns a nonnegative
point at or beyond the end of the first line (boundary branches return
newline positions, the fallback returns `maxLength - 100`). -/
theorem fgtp_ge_firstLine (content : List Char) (maxLength : Nat)
    (h100 : 100 + (content.takeWhile fun c => c != '\n').length ≤ maxLength) :
    ((content.takeWhile fun c => c != '\n').length : Int) ≤
      findGoodTruncationPoint content maxLength ∧
    0 ≤ findGoodTruncationPoint content maxLength := by
  have htA : ((content.takeWhile fun c => c != '\n').length : Int) ≤
      (maxLength : Int) - 100 := by omega
  have htA0 : (0 : Int) ≤ (maxLength : Int) - 100 := by omega
  simp only [findGoodTruncationPoint]
  split
  · rename_i hgt
    have hge : 0 ≤ jsLastIndexOf content ['\n', '@', '@'] ((maxLength : Int) - 100) := by
      omega
    have hres : jsLastIndexOf content ['\n', '@', '@'] ((maxLength : Int) - 100) =
        jsLastIndexOf content ['\n', '@', '@'] ((maxLength : Int) - 100) := rfl
    have hocc := jsLastIndexOf_occurrence hres hge
    have hfl := firstLine_le_of_newline_at hocc
    exact ⟨by omega, hge⟩
  · split
    · rename_i hgt2
      have hge : 0 ≤ jsLastIndexOf content ['\n'] ((maxLength : Int) - 100) := by omega
      have hres : jsLastIndexOf content ['\n'] ((maxLength : Int) - 100) =
          jsLastIndexOf content ['\n'] ((maxLength : Int) - 100) := rfl
      have hocc := jsLastIndexOf_occurrence hres hge
      have hfl := firstLine_le_of_newline_at hocc
      exact ⟨by omega, hge⟩
    · exact ⟨htA, htA0⟩

/-- Claim C8 (amended): every unit emitted by `parseFileChunk` has a body
that is either the whole file block (always so when the block fits in
`maxChunkSize`) or a prefix of it with the truncation marker appended —
truncation only ever removes a tail suffix.  The block's first line (the
unit's `diff --git` header line for splitter-produced blocks) is a prefix of
the body whenever `maxChunkSize` is at least the header length plus the
100-byte reserve; for smaller `maxChunkSize` the header can be lost (see the
counterexample). -/
theorem C8_tail_truncation (opts : ProcessorOptions) (block : List Char) (chunk : DiffChunk)
    (hp : parseFileChunk opts block = some chunk) :
    (chunk.content = block ∨
      ∃ pfx t, pfx ++ t = block ∧ chunk.content = pfx ++ truncationMarker) ∧
    (block.length ≤ opts.maxChunkSize → chunk.content = block) ∧
    (100 + (block.takeWhile fun c => c != '\n').length ≤ opts.maxChunkSize →
      ∃ t, (block.takeWhile fun c => c != '\n') ++ t = chunk.content) := by
  have hcontent : chunk.content =
      (if opts.maxChunkSize < block.length then
        jsSubstringTo block (findGoodTruncationPoint block opts.maxChunkSize)
          ++ truncationMarker
      else block) := by
    simp only [parseFileChunk] at hp
    split at hp
    · exact Option.noConfusion hp
    · split at hp
      · exact Option.noConfusion hp
      · have hrec := Option.some.inj hp
        rw [← hrec]
  by_cases hsize : opts.maxChunkSize < block.length
  · rw [if_pos hsize] at hcontent
    have hsub : jsSubstringTo block (findGoodTruncationPoint block opts.maxChunkSize) =
        block.take (findGoodTruncationPoint block opts.maxChunkSize).toNat := rfl
    refine ⟨Or.inr ⟨block.take (findGoodTruncationPoint block opts.maxChunkSize).toNat,
      block.drop (findGoodTruncationPoint block opts.maxChunkSize).toNat,
      List.take_append_drop _ _, by rw [hcontent, hsub]⟩, ?_, ?_⟩
    · intro hle
      omega
    · intro h100
      rcases fgtp_ge_firstLine block opts.maxChunkSize h100 with ⟨hge, hpos⟩
      have hlen : (block.takeWhile fun c => c != '\n').length ≤
          (findGoodTruncationPoint block opts.maxChunkSize).toNat := by omega
      rcases takeWhile_pre_take hlen with ⟨t0, ht0⟩
      refine ⟨t0 ++ truncationMarker, ?_⟩
      rw [hcontent, hsub, ← List.append_assoc, ht0]
  · rw [if_neg hsize] at hcontent
    refine ⟨Or.inl hcontent, fun _ => hcontent, fun _ => ?_⟩
    refine ⟨block.dropWhile (fun c => c != '\n'), ?_⟩
    rw [hcontent, List.takeWhile_append_dropWhile]

/-- Claim C8 witness: under `opts130` the oversized `blk130` is truncated at
the fallback point and its 19-byte header line survives as a prefix of the
body. -/
theorem C8_witness :
    parseFileChunk opts130 blk130 = some blk130Chunk ∧
    (100 + (blk130.takeWhile fun c => c != '\n').length ≤ opts130.maxChunkSize) ∧
    ∃ t, (blk130.takeWhile fun c => c != '\n') ++ t = blk130Chunk.content :=
  ⟨by decide, by decide,
    (C8_tail_truncation opts130 blk130 blk130Chunk (by decide)).2.2 (by decide)⟩

/-- Claim C8 counterexample: with `maxChunkSize = 50` the truncation point
`50 - 100` is negative, `lastIndexOf` returns `-1`, the float-guard
`-1 > 0.7 · (-50)` accepts it, and `substring(0, -1)` empties the body: the
unit's body is exactly the truncation marker and does not contain its
`diff --git` header line. -/
theorem C8_counterexample :
    ((parseFileChunk opts50 blk50).map fun c => c.content) = some truncationMarker ∧
    ((parseFileChunk opts50 blk50).map fun c =>
        containsSubstr c.content "diff --git".data) = some false := by
  decide
